import Mathlib

/-!
Verification of the rule-matching and template-expansion engine of resc.

The Rust sources embedded here are src/rules.rs (the Rule and Ruleset
types and the match/expand algorithm), src/ruleset.rs and src/conf.rs
(configuration defaulting). The regex engine (the external regex crate)
is modelled abstractly: a compiled regular expression is represented by
its list of capture-group names together with a capture function; the
crate's contract that is_match is true exactly when captures returns
match data is part of the model. The property-source (fetcher) and
template (pattern) modules are not part of the visible tree and are
modelled from the specification, as marked on their definitions.
-/

namespace Resc

/-- A property map, modelling Rust's HashMap<String, String> as an
association list whose keys are kept unique by insertion. Lookup returns
the first binding of the key. -/
abbrev PropMap : Type := List (String × String)

/-- Lookup in a property map: models HashMap::get. -/
def lookupProp : PropMap → String → Option String
  | [], _ => none
  | (k, v) :: rest, key => if k == key then some v else lookupProp rest key

/-- Insertion into a property map: models HashMap::insert, which replaces
any existing binding of the key. -/
def insertProp (m : PropMap) (k v : String) : PropMap :=
  (k, v) :: m.filter (fun p => !(p.1 == k))

/-- The left brace character, written by code point. -/
def lbrace : Char := Char.ofNat 123

/-- The right brace character, written by code point. -/
def rbrace : Char := Char.ofNat 125

/-- Modelled from the spec: a Template is "a string containing named
placeholders" (src/pattern.rs is not in the visible tree; only its type
name Pattern and its field src appear in src/conf.rs). -/
structure Pattern where
  src : String

/-- Scanner state for placeholder substitution: plain text, just after a
dollar sign, or inside a placeholder name (accumulated in reverse). -/
inductive ScanState where
  | text : ScanState
  | dollar : ScanState
  | inName (acc : List Char) : ScanState

/-- Modelled from the spec: the placeholder scanner. It "scans the
template string for placeholder markers of the form a dollar sign
followed by a braced name; for each placeholder, if the name exists in
props, substitutes its value (raw, no escaping); if absent, leaves the
literal placeholder text unchanged in the output". -/
def injectGo (props : PropMap) : ScanState → List Char → List Char
  | ScanState.text, [] => []
  | ScanState.dollar, [] => ['$']
  | ScanState.inName acc, [] => '$' :: lbrace :: acc.reverse
  | ScanState.text, c :: rest =>
    if c = '$' then injectGo props ScanState.dollar rest
    else c :: injectGo props ScanState.text rest
  | ScanState.dollar, c :: rest =>
    if c = lbrace then injectGo props (ScanState.inName []) rest
    else if c = '$' then '$' :: injectGo props ScanState.dollar rest
    else '$' :: c :: injectGo props ScanState.text rest
  | ScanState.inName acc, c :: rest =>
    if c = rbrace then
      match lookupProp props (String.mk acc.reverse) with
      | some v => v.data ++ injectGo props ScanState.text rest
      | none => '$' :: lbrace :: (acc.reverse ++ rbrace :: injectGo props ScanState.text rest)
    else injectGo props (ScanState.inName (c :: acc)) rest

/-- Modelled from the spec: Pattern::inject renders the template against
a property map (render is total and never fails). -/
def Pattern.inject (p : Pattern) (props : PropMap) : String :=
  String.mk (injectGo props ScanState.text p.src.data)

/-- Model of the external regex crate's compiled Regex as used by
src/rules.rs: the list of capture-group names in declaration order
(none stands for an unnamed group, as yielded by capture_names), and a
capture function giving, for a matching haystack, the matched substring
of each named group that participated in the match (caps.name). Per the
crate's contract, is_match is true exactly when captures yields data. -/
structure Regex where
  capture_names : List (Option String)
  captures : String → Option PropMap

/-- Regex::is_match, per the regex crate's contract tied to captures. -/
def Regex.is_match (r : Regex) (t : String) : Bool :=
  (r.captures t).isSome

/-- Captures::name: the matched substring of a named group, none when the
group did not participate in the match. -/
def capsName (caps : PropMap) (n : String) : Option String :=
  lookupProp caps n

/-- Modelled from the spec: a PropertySource, "anything that, given a
property mapping, can yield zero or more additional property mappings",
whose fetch "is surfaced to the caller as a typed error" on failure
(src/fetcher.rs is not in the visible tree; src/rules.rs calls
fetcher.results(&props) and reads fetch_result.props, so a fetch result
is represented here directly by its property map). -/
structure Fetcher where
  results : PropMap → Except String (List PropMap)

/-- RuleResult from src/rules.rs lines 8-13. -/
structure RuleResult where
  task : String
  queue : String
  set : String

/-- Rule from src/rules.rs lines 15-23. -/
structure Rule where
  name : String
  on_regex : Regex
  fetchers : List Fetcher
  make_task : Pattern
  make_queue : Pattern
  make_set : Pattern

/-- Rule::is_match, src/rules.rs lines 26-28. -/
def Rule.is_match (r : Rule) (task : String) : Bool :=
  r.on_regex.is_match task

/-- Rule::result, src/rules.rs lines 29-35: render the three templates
against a property map. -/
def Rule.result (r : Rule) (props : PropMap) : RuleResult :=
  { task := r.make_task.inject props
    queue := r.make_queue.inject props
    set := r.make_set.inject props }

/-- One step of the base-property loop of src/rules.rs lines 41-47: a
named group that participated in the match inserts its matched substring
under the group name; unnamed groups and non-participating groups leave
the map unchanged. -/
def capStep (caps : PropMap) (props : PropMap) (g : Option String) : PropMap :=
  match g with
  | some nm =>
    match capsName caps nm with
    | some value => insertProp props nm value
    | none => props
  | none => props

/-- The base property map built by Rule::results (src/rules.rs lines
38-47) from the capture data of the match. -/
def Rule.baseProps (r : Rule) (caps : PropMap) : PropMap :=
  r.on_regex.capture_names.foldl (capStep caps) []

/-- The parent-property overlay of src/rules.rs lines 57-59: every entry
of the base map is inserted into the fetched map, so base entries
overwrite same-named fetched entries. -/
def mergeBase (base fetched : PropMap) : PropMap :=
  base.foldl (fun m kv => insertProp m kv.1 kv.2) fetched

/-- The fetcher loop of src/rules.rs lines 51-63: each fetcher is run on
the base map; a failure aborts the whole computation with that error; on
success one RuleResult is rendered per fetched map (merged with the base
map) and the per-fetcher result lists are concatenated in order. -/
def fetchAll (r : Rule) (props : PropMap) : List Fetcher → Except String (List RuleResult)
  | [] => Except.ok []
  | f :: fs =>
    match f.results props with
    | Except.error e => Except.error e
    | Except.ok fetch_results =>
      match fetchAll r props fs with
      | Except.error e => Except.error e
      | Except.ok rest =>
        Except.ok (fetch_results.map (fun fr => r.result (mergeBase props fr)) ++ rest)

/-- The body of Rule::results once capture data is at hand (src/rules.rs
lines 48-67). -/
def Rule.resultsCore (r : Rule) (caps : PropMap) : Except String (List RuleResult) :=
  if r.fetchers.length > 0 then fetchAll r (r.baseProps caps) r.fetchers
  else Except.ok [r.result (r.baseProps caps)]

/-- Rule::results, src/rules.rs lines 37-68. The unwrap of the captures
call (line 39) panics when the pattern does not match; the panic is
modelled by the outer none. -/
def Rule.results (r : Rule) (task : String) : Option (Except String (List RuleResult)) :=
  match r.on_regex.captures task with
  | none => none
  | some caps => some (r.resultsCore caps)

/-- Ruleset from src/ruleset.rs lines 9-12 (and src/rules.rs lines 71-74). -/
structure Ruleset where
  rules : List Rule

/-- Ruleset::matching_rules, src/ruleset.rs lines 14-18: filter the rules
by is_match, keeping declaration order. -/
def Ruleset.matching_rules (s : Ruleset) (task : String) : List Rule :=
  s.rules.filter (fun r => r.is_match task)

namespace SpecModel

/-- Modelled from the spec: the Rule type that src/conf.rs as_rule
constructs (its module, src/rule.rs, is not in the visible tree). Per the
spec it "holds exactly one MatchPattern, zero-or-more PropertySource
declarations, and exactly three Templates (task, queue, set; set is
optional and may be absent)"; src/conf.rs lines 93-99 build make_set as
an optional Pattern. -/
structure Rule where
  name : String
  on_regex : Regex
  fetchers : List Fetcher
  make_task : Pattern
  make_queue : Pattern
  make_set : Option Pattern

/-- Modelled from the spec: the OutputDescriptor of the same missing
module, "three strings: rendered task, rendered queue, rendered set
(may be the empty/absent sentinel if the rule declared no set
template)". -/
structure RuleResult where
  task : String
  queue : String
  set : Option String

/-- Modelled from the spec: rendering one OutputDescriptor; the set field
is rendered only when a set template was declared, and is the absent
sentinel otherwise. -/
def Rule.result (r : Rule) (props : PropMap) : RuleResult :=
  { task := r.make_task.inject props
    queue := r.make_queue.inject props
    set := r.make_set.map (fun p => p.inject props) }

end SpecModel

/-- Model of serde_json's Value as used by src/conf.rs. -/
inductive Value where
  | null : Value
  | bool (b : Bool) : Value
  | number (n : Int) : Value
  | str (s : String) : Value
  | arr (elems : List Value) : Value
  | obj (fields : List (String × Value)) : Value

/-- Field lookup inside an object's field list. -/
def lookupField : List (String × Value) → String → Option Value
  | [], _ => none
  | (k, v) :: rest, key => if k == key then some v else lookupField rest key

/-- Indexing a Value with a string key (serde_json's Index): the field's
value on an object that has the field, Null otherwise. -/
def Value.index (v : Value) (key : String) : Value :=
  match v with
  | Value.obj fields =>
    match lookupField fields key with
    | some w => w
    | none => Value.null
  | _ => Value.null

/-- JConv::get_string, src/conf.rs lines 36-41. -/
def Value.get_string (v : Value) (c : String) : Except String String :=
  match v.index c with
  | Value.str s => Except.ok s
  | _ => Except.error ("Missing " ++ c)

/-- The queue-name part of JConv::as_watcher, src/conf.rs lines 116-120:
input_queue is required; taken_queue falls back to the input queue name
followed by "/taken" when the configured value is not a string. The
remainder of as_watcher (rule parsing) does not touch these fields and is
not modelled here. -/
def as_watcher_queues (v : Value) : Except String (String × String) :=
  match v.get_string "input_queue" with
  | Except.error e => Except.error e
  | Except.ok input_queue =>
    Except.ok
      (input_queue,
        match v.index "taken_queue" with
        | Value.str s => s
        | _ => input_queue ++ "/taken")

/-! Concrete fixtures used by the witness theorems. -/

/-- Capture data of the fixture match: the named group id matched 42. -/
def capsW : PropMap := [("id", "42")]

/-- A fixture regex with one unnamed group (the whole match) and one
named group id; it matches exactly the task string job/42. -/
def regexW : Regex :=
  { capture_names := [none, some "id"]
    captures := fun t => if t == "job/42" then some [("id", "42")] else none }

/-- A fetcher returning one property map. -/
def fetcherEU : Fetcher :=
  { results := fun _ => Except.ok [[("region", "eu")]] }

/-- A fetcher returning two property maps. -/
def fetcherUSAP : Fetcher :=
  { results := fun _ => Except.ok [[("region", "us")], [("region", "ap")]] }

/-- A fetcher that always fails. -/
def fetcherFail : Fetcher :=
  { results := fun _ => Except.error "boom" }

/-- A fetcher that succeeds with no property maps. -/
def fetcherEmpty : Fetcher :=
  { results := fun _ => Except.ok [] }

/-- A fixture rule with no fetchers. -/
def ruleNoFetch : Rule :=
  { name := "r0"
    on_regex := regexW
    fetchers := []
    make_task := { src := "${id}-processed" }
    make_queue := { src := "done" }
    make_set := { src := "" } }

/-- A fixture rule with two fetchers. -/
def ruleTwoFetch : Rule :=
  { ruleNoFetch with fetchers := [fetcherEU, fetcherUSAP] }

/-- A fixture rule whose first fetcher succeeds and whose second fails. -/
def ruleOkThenFail : Rule :=
  { ruleNoFetch with fetchers := [fetcherEU, fetcherFail] }

/-- A fixture rule whose only fetcher returns no property maps. -/
def ruleEmptyFetch : Rule :=
  { ruleNoFetch with fetchers := [fetcherEmpty] }

/-- A fixture rule of the spec-modelled kind that declares no set
template. -/
def ruleNoSet : SpecModel.Rule :=
  { name := "r1"
    on_regex := regexW
    fetchers := []
    make_task := { src := "${id}" }
    make_queue := { src := "q" }
    make_set := none }

/-- A fixture watcher configuration without a taken_queue entry. -/
def watcherValueW : Value :=
  Value.obj [("input_queue", Value.str "jobs")]

end Resc

namespace Resc

theorem lookupProp_insertProp_self (m : PropMap) (k v : String) :
    lookupProp (insertProp m k v) k = some v := by
  simp [insertProp, lookupProp]

theorem lookupProp_filter_ne (m : PropMap) (k key : String) (hne : key ≠ k) :
    lookupProp (m.filter (fun p => !(p.1 == k))) key = lookupProp m key := by
  induction m with
  | nil => rfl
  | cons p t ih =>
    obtain ⟨pk, pv⟩ := p
    by_cases h1 : pk = k
    · have hpk : (pk == k) = true := beq_iff_eq.mpr h1
      have hpkey : (pk == key) = false := by
        refine beq_eq_false_iff_ne.mpr ?_
        rw [h1]
        exact fun hh => hne hh.symm
      simp [List.filter_cons, hpk, lookupProp, hpkey, ih]
    · have hpk : (pk == k) = false := beq_eq_false_iff_ne.mpr h1
      simp only [List.filter_cons, hpk, Bool.not_false, if_true, lookupProp, ih]

theorem lookupProp_insertProp_ne (m : PropMap) (k v key : String) (hne : key ≠ k) :
    lookupProp (insertProp m k v) key = lookupProp m key := by
  have hk : (k == key) = false := beq_eq_false_iff_ne.mpr (fun hh => hne hh.symm)
  simp [insertProp, lookupProp, hk, lookupProp_filter_ne m k key hne]

theorem lookupProp_foldl_insert_not_mem (l : PropMap) :
    ∀ (acc : PropMap) (key : String), (∀ p ∈ l, p.1 ≠ key) →
      lookupProp (l.foldl (fun m kv => insertProp m kv.1 kv.2) acc) key = lookupProp acc key := by
  induction l with
  | nil => intro acc key _; rfl
  | cons p t ih =>
    intro acc key h
    have h1 : p.1 ≠ key := h p (List.mem_cons_self p t)
    rw [List.foldl_cons, ih _ key (fun q hq => h q (List.mem_cons_of_mem p hq))]
    exact lookupProp_insertProp_ne acc p.1 p.2 key (fun hh => h1 hh.symm)

theorem mergeBase_preserves_base (base : PropMap) :
    (base.map Prod.fst).Nodup →
    ∀ (fetched : PropMap) (k v : String), lookupProp base k = some v →
      lookupProp (mergeBase base fetched) k = some v := by
  induction base with
  | nil => intro _ fetched k v h; cases h
  | cons p t ih =>
    intro hnd fetched k v h
    obtain ⟨pk, pv⟩ := p
    have hnd1 : (pk :: t.map Prod.fst).Nodup := hnd
    have hhead : pk ∉ t.map Prod.fst := (List.nodup_cons.mp hnd1).1
    have htail : (t.map Prod.fst).Nodup := (List.nodup_cons.mp hnd1).2
    by_cases h1 : pk = k
    · subst h1
      have hv : pv = v := by simpa [lookupProp] using h
      subst hv
      show lookupProp
        (List.foldl (fun m kv => insertProp m kv.1 kv.2) (insertProp fetched pk pv) t) pk = some pv
      rw [lookupProp_foldl_insert_not_mem t _ pk ?hnm]
      · exact lookupProp_insertProp_self fetched pk pv
      · intro q hq hqk
        exact hhead (hqk ▸ List.mem_map_of_mem Prod.fst hq)
    · have hpk : (pk == k) = false := beq_eq_false_iff_ne.mpr h1
      have h2 : lookupProp t k = some v := by simpa [lookupProp, hpk] using h
      exact ih htail (insertProp fetched pk pv) k v h2

theorem insertProp_keys_nodup (m : PropMap) (k v : String)
    (h : (m.map Prod.fst).Nodup) : ((insertProp m k v).map Prod.fst).Nodup := by
  refine List.nodup_cons.mpr ⟨?_, ?_⟩
  · intro hmem
    obtain ⟨q, hq, hqk⟩ := List.mem_map.mp hmem
    have := (List.mem_filter.mp hq).2
    rw [hqk] at this
    simp at this
  · exact ((List.filter_sublist m).map Prod.fst).nodup h

theorem capStep_keys_nodup (caps : PropMap) (props : PropMap) (g : Option String)
    (h : (props.map Prod.fst).Nodup) : ((capStep caps props g).map Prod.fst).Nodup := by
  cases g with
  | none => exact h
  | some nm =>
    cases hc : capsName caps nm with
    | none => simpa [capStep, hc] using h
    | some value =>
      simpa [capStep, hc] using insertProp_keys_nodup props nm value h

theorem foldl_capStep_keys_nodup (caps : PropMap) (names : List (Option String)) :
    ∀ acc : PropMap, (acc.map Prod.fst).Nodup →
      ((names.foldl (capStep caps) acc).map Prod.fst).Nodup := by
  induction names with
  | nil => intro acc h; exact h
  | cons g t ih =>
    intro acc h
    exact ih (capStep caps acc g) (capStep_keys_nodup caps acc g h)

theorem baseProps_keys_nodup (r : Rule) (caps : PropMap) :
    ((r.baseProps caps).map Prod.fst).Nodup :=
  foldl_capStep_keys_nodup caps r.on_regex.capture_names [] List.nodup_nil

theorem lookupProp_foldl_capStep_not_mem (caps : PropMap) (names : List (Option String)) :
    ∀ (acc : PropMap) (n : String), some n ∉ names →
      lookupProp (names.foldl (capStep caps) acc) n = lookupProp acc n := by
  induction names with
  | nil => intro acc n _; rfl
  | cons g t ih =>
    intro acc n hn
    have hg : g ≠ some n := fun hh => hn (hh ▸ List.mem_cons_self g t)
    have ht : some n ∉ t := fun hh => hn (List.mem_cons_of_mem g hh)
    rw [List.foldl_cons, ih _ n ht]
    cases g with
    | none => rfl
    | some m =>
      have hm : n ≠ m := fun hh => hg (by rw [hh])
      cases hc : capsName caps m with
      | none => simp [capStep, hc]
      | some value =>
        simp only [capStep, hc]
        exact lookupProp_insertProp_ne acc m value n hm

theorem lookupProp_foldl_capStep_none (caps : PropMap) (n : String)
    (hc : capsName caps n = none) (names : List (Option String)) :
    ∀ acc : PropMap,
      lookupProp (names.foldl (capStep caps) acc) n = lookupProp acc n := by
  induction names with
  | nil => intro acc; rfl
  | cons g t ih =>
    intro acc
    rw [List.foldl_cons, ih]
    cases g with
    | none => rfl
    | some m =>
      by_cases hm : m = n
      · subst hm; simp [capStep, hc]
      · cases hcm : capsName caps m with
        | none => simp [capStep, hcm]
        | some value =>
          simp only [capStep, hcm]
          exact lookupProp_insertProp_ne acc m value n (fun hh => hm hh.symm)

theorem lookupProp_foldl_capStep_mem (caps : PropMap) (n v : String)
    (hc : capsName caps n = some v) (names : List (Option String)) :
    ∀ acc : PropMap, some n ∈ names →
      lookupProp (names.foldl (capStep caps) acc) n = some v := by
  induction names with
  | nil => intro acc h; cases h
  | cons g t ih =>
    intro acc hmem
    rw [List.foldl_cons]
    by_cases hg : g = some n
    · subst hg
      by_cases ht : some n ∈ t
      · exact ih _ ht
      · rw [lookupProp_foldl_capStep_not_mem caps t _ n ht]
        simp only [capStep, hc]
        exact lookupProp_insertProp_self acc n v
    · have ht : some n ∈ t := by
        cases List.mem_cons.mp hmem with
        | inl hh => exact absurd hh.symm hg
        | inr hh => exact hh
      exact ih _ ht

theorem results_eq_of_captures (r : Rule) (task : String) (caps : PropMap)
    (h : r.on_regex.captures task = some caps) :
    r.results task = some (r.resultsCore caps) := by
  unfold Rule.results
  rw [h]

theorem fetchAll_error_of_first_failure (r : Rule) (props : PropMap) (f : Fetcher)
    (e : String) (post : List Fetcher) :
    ∀ pre : List Fetcher, (∀ g ∈ pre, ∃ l, g.results props = Except.ok l) →
      f.results props = Except.error e →
      fetchAll r props (pre ++ f :: post) = Except.error e := by
  intro pre
  induction pre with
  | nil =>
    intro _ he
    simp [fetchAll, he]
  | cons g t ih =>
    intro hpre he
    obtain ⟨l, hl⟩ := hpre g (List.mem_cons_self g t)
    have hrec := ih (fun q hq => hpre q (List.mem_cons_of_mem g hq)) he
    simp [fetchAll, hl, hrec]

theorem fetchAll_empty_of_all_empty (r : Rule) (props : PropMap) :
    ∀ fs : List Fetcher, (∀ f ∈ fs, f.results props = Except.ok []) →
      fetchAll r props fs = Except.ok [] := by
  intro fs
  induction fs with
  | nil => intro _; rfl
  | cons g t ih =>
    intro h
    have hg := h g (List.mem_cons_self g t)
    have ht := ih (fun q hq => h q (List.mem_cons_of_mem g hq))
    simp [fetchAll, hg, ht]

end Resc

namespace Resc

/-- C1: for a rule with fetchers and a matching task, when no fetch
fails, Rule::results evaluates each fetcher independently on the base
property map and concatenates their result sets: a rule with two
fetchers yielding N and M property maps produces exactly N + M output
descriptors, never N times M. -/
theorem results_concatenates_fetcher_outputs (r : Rule) (task : String) (caps : PropMap)
    (hcap : r.on_regex.captures task = some caps)
    (f1 f2 : Fetcher) (hf : r.fetchers = [f1, f2])
    (l1 l2 : List PropMap)
    (h1 : f1.results (r.baseProps caps) = Except.ok l1)
    (h2 : f2.results (r.baseProps caps) = Except.ok l2) :
    ∃ out, r.results task = some (Except.ok out) ∧ out.length = l1.length + l2.length := by
  rw [results_eq_of_captures r task caps hcap]
  refine ⟨l1.map (fun fr => r.result (mergeBase (r.baseProps caps) fr)) ++
      (l2.map (fun fr => r.result (mergeBase (r.baseProps caps) fr)) ++ []), ?_, ?_⟩
  · simp only [Rule.resultsCore, hf]
    have hlen : ([f1, f2] : List Fetcher).length > 0 := by simp
    rw [if_pos hlen]
    simp [fetchAll, h1, h2]
  · simp

/-- C1 witness: the two-fetcher fixture yields 1 + 2 = 3 descriptors. -/
theorem results_concatenates_fetcher_outputs_example :
    ∃ out, ruleTwoFetch.results "job/42" = some (Except.ok out) ∧ out.length = 3 :=
  results_concatenates_fetcher_outputs ruleTwoFetch "job/42" capsW rfl fetcherEU fetcherUSAP rfl
    [[("region", "eu")]] [[("region", "us")], [("region", "ap")]] rfl rfl

/-- C2: for every key defined in the base (regex-derived) property map,
the merged map used for rendering a fetched result holds the base value:
base properties are overlaid on top of every fetched map and take
precedence over same-named fetched properties. -/
theorem base_overrides_fetched (r : Rule) (task : String) (caps : PropMap)
    (hcap : r.on_regex.captures task = some caps)
    (fetched : PropMap) (k v : String)
    (hk : lookupProp (r.baseProps caps) k = some v) :
    lookupProp (mergeBase (r.baseProps caps) fetched) k = some v :=
  mergeBase_preserves_base (r.baseProps caps) (baseProps_keys_nodup r caps) fetched k v hk

/-- C2 witness: the base value 42 of id survives a merge with a fetched
map that also binds id. -/
theorem base_overrides_fetched_example :
    lookupProp (mergeBase (Rule.baseProps ruleTwoFetch capsW) [("id", ""), ("region", "eu")])
      "id" = some "42" :=
  base_overrides_fetched ruleTwoFetch "job/42" capsW rfl [("id", ""), ("region", "eu")]
    "id" "42" rfl

/-- C3: if any fetcher in the rule's declaration list fails, Rule::results
returns that fetcher's error and produces zero output descriptors;
results already computed for earlier fetchers are discarded. -/
theorem fetch_error_aborts_expand (r : Rule) (task : String) (caps : PropMap)
    (hcap : r.on_regex.captures task = some caps)
    (pre post : List Fetcher) (f : Fetcher) (e : String)
    (hsplit : r.fetchers = pre ++ f :: post)
    (hpre : ∀ g ∈ pre, ∃ l, g.results (r.baseProps caps) = Except.ok l)
    (he : f.results (r.baseProps caps) = Except.error e) :
    r.results task = some (Except.error e) := by
  rw [results_eq_of_captures r task caps hcap]
  simp only [Rule.resultsCore, hsplit]
  have hlen : (pre ++ f :: post).length > 0 := by simp
  rw [if_pos hlen, fetchAll_error_of_first_failure r (r.baseProps caps) f e post pre hpre he]

/-- C3 witness: a rule whose first fetcher succeeds and whose second
fails expands to that error and no descriptors. -/
theorem fetch_error_aborts_expand_example :
    ruleOkThenFail.results "job/42" = some (Except.error "boom") :=
  fetch_error_aborts_expand ruleOkThenFail "job/42" capsW rfl [fetcherEU] [] fetcherFail "boom"
    rfl
    (by
      intro g hg
      have hg2 : g = fetcherEU := List.mem_singleton.mp hg
      subst hg2
      exact ⟨[[("region", "eu")]], rfl⟩)
    rfl

/-- C4: for a rule with zero fetchers and a matching task, Rule::results
returns exactly one output descriptor whose task, queue and set fields
are the three templates rendered with the base property map of the
match's named captures. -/
theorem no_fetchers_single_result (r : Rule) (task : String) (caps : PropMap)
    (hcap : r.on_regex.captures task = some caps)
    (hf : r.fetchers = []) :
    r.results task = some (Except.ok
      [{ task := r.make_task.inject (r.baseProps caps)
         queue := r.make_queue.inject (r.baseProps caps)
         set := r.make_set.inject (r.baseProps caps) }]) := by
  rw [results_eq_of_captures r task caps hcap]
  simp [Rule.resultsCore, hf, Rule.result]

/-- C4 witness: the fetcherless fixture rule expands job/42 to the single
descriptor rendered from the named capture id equal to 42. -/
theorem no_fetchers_single_result_example :
    ruleNoFetch.results "job/42" =
      some (Except.ok [{ task := "42-processed", queue := "done", set := "" }]) :=
  no_fetchers_single_result ruleNoFetch "job/42" capsW rfl rfl

/-- C5: the base property map built by Rule::results binds a name to a
value exactly when the name is a named capture group of the pattern and
that group participated in the match with that matched substring;
unnamed groups and non-participating named groups contribute nothing. -/
theorem base_props_exactly_named_captures (r : Rule) (task : String) (caps : PropMap)
    (hcap : r.on_regex.captures task = some caps) (n v : String) :
    lookupProp (r.baseProps caps) n = some v ↔
      (some n ∈ r.on_regex.capture_names ∧ capsName caps n = some v) := by
  constructor
  · intro hl
    simp only [Rule.baseProps] at hl
    by_cases hmem : some n ∈ r.on_regex.capture_names
    · cases hc : capsName caps n with
      | none =>
        rw [lookupProp_foldl_capStep_none caps n hc r.on_regex.capture_names []] at hl
        simp [lookupProp] at hl
      | some w =>
        rw [lookupProp_foldl_capStep_mem caps n w hc r.on_regex.capture_names [] hmem] at hl
        exact ⟨hmem, hl⟩
    · rw [lookupProp_foldl_capStep_not_mem caps r.on_regex.capture_names [] n hmem] at hl
      simp [lookupProp] at hl
  · rintro ⟨hmem, hc⟩
    simp only [Rule.baseProps]
    exact lookupProp_foldl_capStep_mem caps n v hc r.on_regex.capture_names [] hmem

/-- C5 witness: in the fixture match the base map binds id to 42, and
this is equivalent to id being a named participating group. -/
theorem base_props_exactly_named_captures_example :
    lookupProp (Rule.baseProps ruleNoFetch capsW) "id" = some "42" ↔
      (some "id" ∈ ruleNoFetch.on_regex.capture_names ∧ capsName capsW "id" = some "42") :=
  base_props_exactly_named_captures ruleNoFetch "job/42" capsW rfl "id" "42"

/-- C6: Ruleset::matching_rules returns, in declaration order, exactly
the rules whose pattern matches the task string: its result is a
sublist of the rule list, every returned rule matches, and every
matching rule of the set is returned. It renders nothing and never calls
Rule::results. -/
theorem matching_rules_selects_matching_in_order (s : Ruleset) (task : String) :
    List.Sublist (s.matching_rules task) s.rules ∧
    (∀ r ∈ s.matching_rules task, r.is_match task = true) ∧
    (∀ r ∈ s.rules, r.is_match task = true → r ∈ s.matching_rules task) := by
  refine ⟨List.filter_sublist s.rules, ?_, ?_⟩
  · intro r hr
    exact (List.mem_filter.mp hr).2
  · intro r hr hm
    exact List.mem_filter.mpr ⟨hr, hm⟩

/-- C7: a rule holds three templates of which the set template is
optional; when a rule declares no set template, the output descriptor's
set field is the absent sentinel. -/
theorem absent_set_template_gives_absent_set (r : SpecModel.Rule) (props : PropMap)
    (h : r.make_set = none) :
    (r.result props).set = none := by
  simp [SpecModel.Rule.result, h]

/-- C7 witness: the fixture rule without a set template renders an absent
set field. -/
theorem absent_set_template_gives_absent_set_example :
    (ruleNoSet.result []).set = none :=
  absent_set_template_gives_absent_set ruleNoSet [] rfl

/-- C8: under the precondition that is_match is true, re-running the
pattern inside Rule::results succeeds: the unwrap of the captures result
never panics (the panic branch, modelled by none, is unreachable). -/
theorem match_guarantees_captures (r : Rule) (task : String)
    (h : r.is_match task = true) :
    (r.results task).isSome = true := by
  unfold Rule.is_match Regex.is_match at h
  cases hc : r.on_regex.captures task with
  | none => rw [hc] at h; simp at h
  | some caps => rw [results_eq_of_captures r task caps hc]; rfl

/-- C8 witness: the fixture rule matches job/42 and its expansion does
not hit the panic branch. -/
theorem match_guarantees_captures_example :
    (ruleNoFetch.results "job/42").isSome = true :=
  match_guarantees_captures ruleNoFetch "job/42" rfl

/-- C9: when a watcher's configuration omits the taken-queue name, the
loader defaults it to the input queue name followed by /taken; when a
taken-queue string is given, it is used unchanged. -/
theorem taken_queue_defaulting (v : Value) (iq : String)
    (h : v.get_string "input_queue" = Except.ok iq) :
    (v.index "taken_queue" = Value.null →
      as_watcher_queues v = Except.ok (iq, iq ++ "/taken")) ∧
    (∀ s, v.index "taken_queue" = Value.str s →
      as_watcher_queues v = Except.ok (iq, s)) := by
  constructor
  · intro ht
    simp [as_watcher_queues, h, ht]
  · intro s ht
    simp [as_watcher_queues, h, ht]

/-- C9 witness: a watcher configuration with input queue jobs and no
taken_queue entry gets the taken queue jobs/taken. -/
theorem taken_queue_defaulting_example :
    as_watcher_queues watcherValueW = Except.ok ("jobs", "jobs/taken") :=
  (taken_queue_defaulting watcherValueW "jobs" rfl).1 rfl

/-- C10: for a rule with fetchers and a matching task, if every fetcher
succeeds with an empty sequence of property maps, Rule::results returns
Ok with an empty sequence of descriptors: no fallback descriptor is
rendered from the base map alone. -/
theorem empty_fetch_results_give_empty_output (r : Rule) (task : String) (caps : PropMap)
    (hcap : r.on_regex.captures task = some caps)
    (hne : r.fetchers ≠ [])
    (hall : ∀ f ∈ r.fetchers, f.results (r.baseProps caps) = Except.ok []) :
    r.results task = some (Except.ok []) := by
  rw [results_eq_of_captures r task caps hcap]
  simp only [Rule.resultsCore]
  have hlen : r.fetchers.length > 0 := List.length_pos.mpr hne
  rw [if_pos hlen, fetchAll_empty_of_all_empty r (r.baseProps caps) r.fetchers hall]

/-- C10 witness: the fixture rule whose only fetcher returns no maps
expands to Ok with zero descriptors. -/
theorem empty_fetch_results_give_empty_output_example :
    ruleEmptyFetch.results "job/42" = some (Except.ok []) :=
  empty_fetch_results_give_empty_output ruleEmptyFetch "job/42" capsW rfl
    (fun hh => List.cons_ne_nil fetcherEmpty [] hh)
    (by
      intro f hf
      have hf2 : f = fetcherEmpty := List.mem_singleton.mp hf
      subst hf2
      rfl)

end Resc
